import Mathlib

/-!
# Verification of the Smart-PDF-Reader persistence layer

Shallow embedding of `src/services/db.ts`, the category-filter logic of
`src/App.tsx`, the collection-name form handler of
`src/components/Sidebar.tsx`, and the lazy store-initialization logic of
`src/services/db.ts` (`getDB`).

Modelling conventions:
* The IndexedDB object stores `files` and `categories` are lists of records;
  `db.put` is insert-or-replace keyed on `id` (IndexedDB in-line key semantics).
* JS `number` fields are `Int`; `Date.now()` results are passed explicitly as
  a `now : Int` parameter.
* `Blob` payloads are byte lists (`List Nat`); structured-clone round-trips
  preserve the bytes, so equality of records includes payload equality.
* `string | null` is `Option String`; JS truthiness of such a value
  (`!f.categoryId`, `if (totalPages)`) is modelled explicitly.
* The JS comparator sort in `getAllPdfMetadata` is modelled by
  `List.insertionSort` with the same comparator: `Array.prototype.sort`
  guarantees exactly a permutation of the input that is sorted under the
  comparator, which is what the sort here is used for.
-/

/-- `Category` record from `src/types.ts`. -/
structure Category where
  id : String
  name : String
  createdAt : Int
deriving DecidableEq, Repr

/-- `PdfFile` record from `src/types.ts`; `blob` is the binary payload. -/
structure PdfFile where
  id : String
  name : String
  categoryId : Option String
  blob : List Nat
  addedAt : Int
  lastReadAt : Option Int
  currentPage : Int
  totalPages : Int
  size : Int
deriving DecidableEq, Repr

/-- `PdfMetadata = Omit<PdfFile, 'blob'>` from `src/types.ts`. -/
structure PdfMetadata where
  id : String
  name : String
  categoryId : Option String
  addedAt : Int
  lastReadAt : Option Int
  currentPage : Int
  totalPages : Int
  size : Int
deriving DecidableEq, Repr

/-- The `const { blob, ...metadata } = cursor.value` destructuring in
`getAllPdfMetadata` (`src/services/db.ts:55`): every field except `blob`. -/
def stripBlob (f : PdfFile) : PdfMetadata :=
  { id := f.id, name := f.name, categoryId := f.categoryId, addedAt := f.addedAt,
    lastReadAt := f.lastReadAt, currentPage := f.currentPage,
    totalPages := f.totalPages, size := f.size }

/-- The durable state of the `shelf-life-db` database: the `files` and
`categories` object stores (`src/services/db.ts:4-14`). -/
structure Store where
  files : List PdfFile
  categories : List Category
deriving DecidableEq, Repr

/-- `db.put('files', file)`: IndexedDB `put` with in-line key `id` —
replace the record with that key if present, otherwise insert. -/
def putFile (l : List PdfFile) (f : PdfFile) : List PdfFile :=
  if ∃ g ∈ l, g.id = f.id then
    l.map (fun g => if g.id = f.id then f else g)
  else l ++ [f]

/-- `db.put('categories', category)`: IndexedDB `put` keyed on `id`. -/
def putCategory (l : List Category) (c : Category) : List Category :=
  if ∃ g ∈ l, g.id = c.id then
    l.map (fun g => if g.id = c.id then c else g)
  else l ++ [c]

/-- `addPdf` (`src/services/db.ts:37-40`): `db.put('files', file)`. -/
def addPdf (s : Store) (file : PdfFile) : Store :=
  { s with files := putFile s.files file }

/-- Comparator of `getAllPdfMetadata`'s final sort
(`src/services/db.ts:61`): `(a, b) => b.addedAt - a.addedAt`, i.e. `a`
precedes `b` when `b.addedAt ≤ a.addedAt` (descending `addedAt`). -/
def addedAtDesc (a b : PdfMetadata) : Prop := b.addedAt ≤ a.addedAt

instance : DecidableRel addedAtDesc := fun a b =>
  inferInstanceAs (Decidable (b.addedAt ≤ a.addedAt))

instance : IsTotal PdfMetadata addedAtDesc := ⟨fun a b => le_total b.addedAt a.addedAt⟩

instance : IsTrans PdfMetadata addedAtDesc :=
  ⟨fun _ _ _ h1 h2 => le_trans h2 h1⟩

/-- `getAllPdfMetadata` (`src/services/db.ts:42-62`): cursor over the
`files` store collecting `{ blob, ...metadata }` projections, then
`sort((a, b) => b.addedAt - a.addedAt)`. -/
def getAllPdfMetadata (s : Store) : List PdfMetadata :=
  List.insertionSort addedAtDesc (s.files.map stripBlob)

/-- `getPdfById` (`src/services/db.ts:64-67`): `db.get('files', id)`,
`undefined` (here `none`) when absent. -/
def getPdfById (s : Store) (id : String) : Option PdfFile :=
  s.files.find? (fun f => f.id = id)

/-- `updatePdfProgress` (`src/services/db.ts:69-82`): in one readwrite
transaction, load the record; if present set `currentPage = page`,
`lastReadAt = Date.now()`, and — only if the `totalPages` argument is
truthy (supplied and a nonzero number) — `totalPages`; then `put` it back.
This is the body of the `if (file)` branch, building the mutated record. -/
def progressUpdate (file : PdfFile) (page : Int) (totalPages : Option Int)
    (now : Int) : PdfFile :=
  { file with
    currentPage := page,
    lastReadAt := some now,
    totalPages :=
      match totalPages with
      | some t => if t ≠ 0 then t else file.totalPages
      | none => file.totalPages }

/-- `updatePdfProgress` (`src/services/db.ts:69-82`), continued: the
read-modify-write over the store, a silent no-op when the id has no
record. -/
def updatePdfProgress (s : Store) (id : String) (page : Int)
    (totalPages : Option Int) (now : Int) : Store :=
  match s.files.find? (fun f => f.id = id) with
  | none => s
  | some file => { s with files := putFile s.files (progressUpdate file page totalPages now) }

/-- `updatePdfCategory` (`src/services/db.ts:84-95`): load the record; if
present set `categoryId` and `put` it back; no-op when absent. -/
def updatePdfCategory (s : Store) (id : String) (categoryId : Option String) : Store :=
  match s.files.find? (fun f => f.id = id) with
  | none => s
  | some file => { s with files := putFile s.files ({ file with categoryId := categoryId }) }

/-- `deletePdf` (`src/services/db.ts:97-100`): `db.delete('files', id)` —
remove the record with that key, a no-op when absent. -/
def deletePdf (s : Store) (id : String) : Store :=
  { s with files := s.files.filter (fun f => f.id ≠ id) }

/-- `addCategory` (`src/services/db.ts:103-106`): `db.put('categories', category)`. -/
def addCategory (s : Store) (category : Category) : Store :=
  { s with categories := putCategory s.categories category }

/-- `getCategories` (`src/services/db.ts:108-111`): `db.getAll('categories')`. -/
def getCategories (s : Store) : List Category :=
  s.categories

/-- `deleteCategory` (`src/services/db.ts:113-128`): delete the category
record, then cursor over the `by-category` index with range `only(id)` —
which visits exactly the files whose `categoryId` equals `id` (null keys
are not indexed) — setting each one's `categoryId` to `null`. -/
def deleteCategory (s : Store) (id : String) : Store :=
  { files := s.files.map
      (fun f => if f.categoryId = some id then { f with categoryId := none } else f),
    categories := s.categories.filter (fun c => c.id ≠ id) }

/-- Helper: replacing every record keyed `d.id` by `d` makes `find?` by that
key return `d`, provided some record with the key is present. -/
theorem find?_map_replace (l : List PdfFile) (d : PdfFile)
    (h : ∃ g ∈ l, g.id = d.id) :
    (l.map (fun g => if g.id = d.id then d else g)).find? (fun f => f.id = d.id)
      = some d := by
  induction l with
  | nil => simp at h
  | cons x xs ih =>
    by_cases hx : x.id = d.id
    · simp [hx]
    · have h' : ∃ g ∈ xs, g.id = d.id := by
        rcases h with ⟨g, hg, hgid⟩
        cases hg with
        | head => exact absurd hgid hx
        | tail _ hg => exact ⟨g, hg, hgid⟩
      simpa [hx] using ih h'

/-- Helper: appending a record with a fresh key makes `find?` by that key
return it. -/
theorem find?_append_self (l : List PdfFile) (d : PdfFile)
    (h : ∀ g ∈ l, g.id ≠ d.id) :
    (l ++ [d]).find? (fun f => f.id = d.id) = some d := by
  induction l with
  | nil => simp
  | cons x xs ih =>
    have hx : x.id ≠ d.id := h x (by simp)
    have ih' := ih (fun g hg => h g (List.mem_cons_of_mem x hg))
    simpa [hx] using ih'

/-- C1: for every store state and every document record `d`, `addPdf d`
followed by `getPdfById d.id` returns a record equal to `d` in every field,
the payload bytes included. -/
theorem addPdf_getPdfById_roundtrip (s : Store) (d : PdfFile) :
    getPdfById (addPdf s d) d.id = some d := by
  unfold getPdfById addPdf putFile
  by_cases h : ∃ g ∈ s.files, g.id = d.id
  · simpa [if_pos h] using find?_map_replace s.files d h
  · rw [if_neg h]
    push_neg at h
    exact find?_append_self s.files d h

/-- Helper for C2: the per-file cascade of `deleteCategory` relates old and
new `files` lists pointwise. -/
theorem forall₂_uncategorize (l : List PdfFile) (cid : String) :
    List.Forall₂
      (fun f g =>
        (f.categoryId = some cid → g = { f with categoryId := none }) ∧
        (f.categoryId ≠ some cid → g = f))
      l
      (l.map fun f => if f.categoryId = some cid then { f with categoryId := none } else f) := by
  induction l with
  | nil => exact List.Forall₂.nil
  | cons x xs ih =>
    refine List.Forall₂.cons ?_ ih
    by_cases hx : x.categoryId = some cid <;> simp [hx]

/-- C2: after `deleteCategory cid`, the `files` list has the same length and
order, every file whose `categoryId` equalled `cid` now has `categoryId = none`,
every other file is unchanged, and `getCategories` no longer contains a
category with id `cid`. -/
theorem deleteCategory_cascade (s : Store) (cid : String) :
    List.Forall₂
      (fun f g =>
        (f.categoryId = some cid → g = { f with categoryId := none }) ∧
        (f.categoryId ≠ some cid → g = f))
      s.files (deleteCategory s cid).files ∧
    (∀ c ∈ getCategories (deleteCategory s cid), c.id ≠ cid) := by
  constructor
  · exact forall₂_uncategorize s.files cid
  · intro c hc
    simp only [getCategories, deleteCategory, List.mem_filter, decide_eq_true_iff] at hc
    exact hc.2

/-- C3: `getAllPdfMetadata` returns a permutation of the `stripBlob`
projection (all fields except the payload) of every stored file, sorted by
`addedAt` descending. -/
theorem getAllPdfMetadata_spec (s : Store) :
    (getAllPdfMetadata s).Perm (s.files.map stripBlob) ∧
    (getAllPdfMetadata s).Sorted addedAtDesc := by
  constructor
  · exact List.perm_insertionSort addedAtDesc (s.files.map stripBlob)
  · exact List.sorted_insertionSort addedAtDesc (s.files.map stripBlob)

/-- Helper: `putFile` of a record `d` whose key equals the key of an
already-found record makes a subsequent `find?` by that key return `d`. -/
theorem find?_putFile_of_found (l : List PdfFile) (id : String) (file d : PdfFile)
    (hf : l.find? (fun f => f.id = id) = some file) (hd : d.id = id) :
    (putFile l d).find? (fun f => f.id = id) = some d := by
  have hfid : file.id = id := by simpa using List.find?_some hf
  have hmem : file ∈ l := List.mem_of_find?_eq_some hf
  subst hd
  unfold putFile
  rw [if_pos ⟨file, hmem, hfid⟩]
  exact find?_map_replace l d ⟨file, hmem, hfid⟩

/-- C4: for a stored record, `updatePdfProgress id page totalPages now`
makes `getPdfById id` return a record whose `currentPage` is `page` (the
given position, whether larger or smaller than before: last write wins),
whose `lastReadAt` is the time of the call, and whose `totalPages` is
overwritten exactly when the `totalPages` argument is supplied and truthy —
passing `0` (or nothing) leaves the stored `totalPages` unchanged. The
whole read-modify-write is one transition of the store. -/
theorem updatePdfProgress_spec (s : Store) (id : String) (page : Int)
    (tp : Option Int) (now : Int) (file : PdfFile)
    (h : getPdfById s id = some file) :
    ∃ f', getPdfById (updatePdfProgress s id page tp now) id = some f' ∧
      f'.currentPage = page ∧
      f'.lastReadAt = some now ∧
      (∀ t : Int, tp = some t → t ≠ 0 → f'.totalPages = t) ∧
      ((tp = none ∨ tp = some 0) → f'.totalPages = file.totalPages) := by
  simp only [getPdfById] at h
  have hfid : file.id = id := by simpa using List.find?_some h
  refine ⟨progressUpdate file page tp now, ?_, rfl, rfl, ?_, ?_⟩
  · simp only [updatePdfProgress, h, getPdfById]
    exact find?_putFile_of_found s.files id file _ h hfid
  · intro t ht hne
    subst ht
    simp [progressUpdate, hne]
  · rintro (rfl | rfl) <;> simp [progressUpdate]

/-- Helper: `deletePdf` is the identity when no stored file has the key. -/
theorem deletePdf_eq_self (s : Store) (id : String)
    (h : ∀ f ∈ s.files, f.id ≠ id) : deletePdf s id = s := by
  unfold deletePdf
  have hfix : s.files.filter (fun f => f.id ≠ id) = s.files :=
    List.filter_eq_self.mpr (fun a ha => by simpa using h a ha)
  rw [hfix]

/-- C5: on an id with no matching record, `updatePdfProgress`,
`updatePdfCategory` and `deletePdf` are silent no-ops leaving the store
unchanged; `deletePdf` applied twice is the same as once (idempotent
second call, no error), and `getPdfById` afterwards returns the absence
signal `none`. -/
theorem missingId_noop (s : Store) (id : String) (page : Int) (tp : Option Int)
    (now : Int) (cid : Option String)
    (h : getPdfById s id = none) :
    updatePdfProgress s id page tp now = s ∧
    updatePdfCategory s id cid = s ∧
    deletePdf s id = s ∧
    deletePdf (deletePdf s id) id = deletePdf s id ∧
    getPdfById (deletePdf s id) id = none := by
  simp only [getPdfById] at h
  have hall : ∀ f ∈ s.files, f.id ≠ id := by
    intro f hf
    have := List.find?_eq_none.mp h f hf
    simpa using this
  have hall2 : ∀ f ∈ (deletePdf s id).files, f.id ≠ id := by
    intro f hf
    simp only [deletePdf, List.mem_filter] at hf
    simpa using hf.2
  refine ⟨?_, ?_, ?_, ?_, ?_⟩
  · simp only [updatePdfProgress, h]
  · simp only [updatePdfCategory, h]
  · exact deletePdf_eq_self s id hall
  · exact deletePdf_eq_self (deletePdf s id) id hall2
  · simp only [getPdfById]
    rw [List.find?_eq_none]
    intro x hx
    simpa using hall2 x hx

/-- Helper for C10: if a record with key `id` is found and replaced through
`putFile` by a record `d` with the same key, then old and new `files` lists
are pointwise related by any reflexive relation that holds between the
found record and `d` (key uniqueness of the store assumed). -/
theorem forall₂_putFile_update (l : List PdfFile) (id : String) (file d : PdfFile)
    (hids : (l.map PdfFile.id).Nodup)
    (hf : l.find? (fun f => f.id = id) = some file)
    (hd : d.id = id)
    (R : PdfFile → PdfFile → Prop)
    (hrefl : ∀ f, R f f)
    (hfd : R file d) :
    List.Forall₂ R l (putFile l d) := by
  have hfid : file.id = id := by simpa using List.find?_some hf
  have hmem : file ∈ l := List.mem_of_find?_eq_some hf
  unfold putFile
  rw [if_pos ⟨file, hmem, hfid.trans hd.symm⟩]
  rw [List.forall₂_map_right_iff, List.forall₂_same]
  intro x hx
  by_cases hxid : x.id = d.id
  · have hxf : x = file := List.inj_on_of_nodup_map hids hx hmem (by rw [hxid, hd, hfid])
    rw [if_pos hxid, hxf]
    exact hfd
  · rw [if_neg hxid]
    exact hrefl x

/-- C10: in a store with unique file keys, `updatePdfProgress` leaves
`id`, `name`, `categoryId`, `blob`, `addedAt` and `size` of every record
unchanged (it touches only `currentPage`, `lastReadAt`, `totalPages` of the
target), `updatePdfCategory` changes only the `categoryId` field of the
target, and both leave every record with a different id — and the whole
`categories` store — untouched. -/
theorem update_frame (s : Store) (id : String) (page : Int) (tp : Option Int)
    (now : Int) (cid : Option String)
    (hids : (s.files.map PdfFile.id).Nodup) :
    ((updatePdfProgress s id page tp now).categories = s.categories ∧
     List.Forall₂ (fun f g =>
        g.id = f.id ∧ g.name = f.name ∧ g.categoryId = f.categoryId ∧
        g.blob = f.blob ∧ g.addedAt = f.addedAt ∧ g.size = f.size ∧
        (f.id ≠ id → g = f)) s.files (updatePdfProgress s id page tp now).files) ∧
    ((updatePdfCategory s id cid).categories = s.categories ∧
     List.Forall₂ (fun f g =>
        g.id = f.id ∧ g.name = f.name ∧ g.blob = f.blob ∧ g.addedAt = f.addedAt ∧
        g.lastReadAt = f.lastReadAt ∧ g.currentPage = f.currentPage ∧
        g.totalPages = f.totalPages ∧ g.size = f.size ∧
        (f.id ≠ id → g = f)) s.files (updatePdfCategory s id cid).files) := by
  constructor
  · cases hfind : s.files.find? (fun f => f.id = id) with
    | none =>
      refine ⟨by simp [updatePdfProgress, hfind], ?_⟩
      simp only [updatePdfProgress, hfind]
      rw [List.forall₂_same]
      intro x _
      exact ⟨rfl, rfl, rfl, rfl, rfl, rfl, fun _ => rfl⟩
    | some file =>
      have hfid : file.id = id := by simpa using List.find?_some hfind
      refine ⟨by simp [updatePdfProgress, hfind], ?_⟩
      simp only [updatePdfProgress, hfind]
      refine forall₂_putFile_update s.files id file
        (progressUpdate file page tp now) hids hfind hfid _ ?_ ?_
      · intro f
        exact ⟨rfl, rfl, rfl, rfl, rfl, rfl, fun _ => rfl⟩
      · refine ⟨rfl, rfl, rfl, rfl, rfl, rfl, fun hne => absurd hfid hne⟩
  · cases hfind : s.files.find? (fun f => f.id = id) with
    | none =>
      refine ⟨by simp [updatePdfCategory, hfind], ?_⟩
      simp only [updatePdfCategory, hfind]
      rw [List.forall₂_same]
      intro x _
      exact ⟨rfl, rfl, rfl, rfl, rfl, rfl, rfl, rfl, fun _ => rfl⟩
    | some file =>
      have hfid : file.id = id := by simpa using List.find?_some hfind
      refine ⟨by simp [updatePdfCategory, hfind], ?_⟩
      simp only [updatePdfCategory, hfind]
      refine forall₂_putFile_update s.files id file
        ({ file with categoryId := cid }) hids hfind hfid _ ?_ ?_
      · intro f
        exact ⟨rfl, rfl, rfl, rfl, rfl, rfl, rfl, rfl, fun _ => rfl⟩
      · refine ⟨rfl, rfl, rfl, rfl, rfl, rfl, rfl, rfl, fun hne => absurd hfid hne⟩

/-- The operations exported by `src/services/db.ts` that change or read the
store, as an operation language for reachability statements. -/
inductive Op where
  | addPdf (file : PdfFile)
  | updatePdfCategory (id : String) (categoryId : Option String)
  | deletePdf (id : String)
  | addCategory (category : Category)
  | deleteCategory (id : String)
  | updatePdfProgress (id : String) (page : Int) (totalPages : Option Int) (now : Int)
deriving Repr

/-- Apply one store operation. -/
def applyOp (s : Store) : Op → Store
  | .addPdf f => addPdf s f
  | .updatePdfCategory id cid => updatePdfCategory s id cid
  | .deletePdf id => deletePdf s id
  | .addCategory c => addCategory s c
  | .deleteCategory id => deleteCategory s id
  | .updatePdfProgress id p tp now => updatePdfProgress s id p tp now

/-- Apply a sequence of store operations, first operation first. -/
def applyOps (s : Store) : List Op → Store
  | [] => s
  | op :: ops => applyOps (applyOp s op) ops

/-- The store right after the `upgrade` callback of `getDB`
(`src/services/db.ts:24-30`): both object stores exist and are empty. -/
def initialStore : Store := { files := [], categories := [] }

/-- A `categoryId` value is a valid reference w.r.t. a `categories` store:
`null` or the id of a present category record (spec §3, Invariants). -/
def validCategoryRef (cats : List Category) (cid : Option String) : Prop :=
  cid = none ∨ ∃ c ∈ cats, cid = some c.id

instance (cats : List Category) (cid : Option String) :
    Decidable (validCategoryRef cats cid) := by
  unfold validCategoryRef
  infer_instance

/-- The referential-integrity invariant: every stored file's `categoryId`
is `null` or the id of a currently-existing category record. -/
def storeInv (s : Store) : Prop :=
  ∀ f ∈ s.files, validCategoryRef s.categories f.categoryId

instance (s : Store) : Decidable (storeInv s) := by
  unfold storeInv
  infer_instance

/-- `addPdf` (`src/services/db.ts:37-40`) performs no validation of
`file.categoryId`, and `updatePdfCategory` likewise trusts its argument;
the guard under which the invariant is actually preserved. -/
def opValid (s : Store) : Op → Prop
  | .addPdf f => validCategoryRef s.categories f.categoryId
  | .updatePdfCategory _ cid => validCategoryRef s.categories cid
  | _ => True

/-- Store states reachable from the fresh store by operations whose
`categoryId` inputs are valid references at the time of the call. -/
inductive ReachableValid : Store → Prop
  | init : ReachableValid initialStore
  | step {s : Store} (op : Op) :
      ReachableValid s → opValid s op → ReachableValid (applyOp s op)

/-- Helper: a member of `putFile l f` is `f` or a member of `l`. -/
theorem mem_putFile {l : List PdfFile} {f g : PdfFile} (h : g ∈ putFile l f) :
    g = f ∨ g ∈ l := by
  unfold putFile at h
  split at h
  · rcases List.mem_map.mp h with ⟨x, hx, hxe⟩
    by_cases hxid : x.id = f.id
    · left
      rw [← hxe, if_pos hxid]
    · right
      rw [← hxe, if_neg hxid]
      exact hx
  · rcases List.mem_append.mp h with h | h
    · right
      exact h
    · left
      simpa using h

/-- Helper: `putCategory` never makes an existing category id disappear. -/
theorem exists_id_mem_putCategory {l : List Category} {c cat : Category}
    (h : cat ∈ l) :
    ∃ cat2 ∈ putCategory l c, cat2.id = cat.id := by
  unfold putCategory
  split
  · refine ⟨if cat.id = c.id then c else cat, List.mem_map_of_mem _ h, ?_⟩
    by_cases hx : cat.id = c.id
    · rw [if_pos hx, hx]
    · rw [if_neg hx]
  · exact ⟨cat, List.mem_append_left _ h, rfl⟩

/-- C6 (amended): referential integrity holds in every state reachable
from the fresh store, provided each `addPdf` and `updatePdfCategory` call
receives a `categoryId` that is null or the id of a then-existing category
(the store itself does not validate these inputs). -/
theorem storeInv_of_reachableValid {s : Store} (h : ReachableValid s) :
    storeInv s := by
  induction h with
  | init =>
    intro f hf
    cases hf
  | @step s op hr hv ih =>
    cases op with
    | addPdf f =>
      intro g hg
      rcases mem_putFile hg with rfl | hgl
      · exact hv
      · exact ih g hgl
    | updatePdfCategory id cid =>
      cases hfind : s.files.find? (fun f => f.id = id) with
      | none =>
        simp only [applyOp, updatePdfCategory, hfind]
        exact ih
      | some file =>
        simp only [applyOp, updatePdfCategory, hfind]
        intro g hg
        rcases mem_putFile hg with rfl | hgl
        · exact hv
        · exact ih g hgl
    | deletePdf id =>
      intro g hg
      simp only [applyOp, deletePdf, List.mem_filter] at hg
      exact ih g hg.1
    | addCategory c =>
      intro g hg
      rcases ih g hg with hnone | ⟨cat, hcat, hcid⟩
      · exact Or.inl hnone
      · rcases exists_id_mem_putCategory (c := c) hcat with ⟨cat2, hcat2, hid2⟩
        exact Or.inr ⟨cat2, hcat2, by rw [hcid, hid2]⟩
    | deleteCategory id =>
      intro g hg
      simp only [applyOp, deleteCategory] at hg
      rcases List.mem_map.mp hg with ⟨f, hf, hfe⟩
      by_cases hfc : f.categoryId = some id
      · rw [← hfe, if_pos hfc]
        exact Or.inl rfl
      · rw [← hfe, if_neg hfc]
        rcases ih f hf with hnone | ⟨cat, hcat, hcid⟩
        · exact Or.inl hnone
        · refine Or.inr ⟨cat, List.mem_filter.mpr ⟨hcat, ?_⟩, hcid⟩
          have : cat.id ≠ id := fun he => hfc (by rw [hcid, he])
          simpa using this
    | updatePdfProgress id p tp now =>
      cases hfind : s.files.find? (fun f => f.id = id) with
      | none =>
        simp only [applyOp, updatePdfProgress, hfind]
        exact ih
      | some file =>
        simp only [applyOp, updatePdfProgress, hfind]
        intro g hg
        rcases mem_putFile hg with rfl | hgl
        · exact ih file (List.mem_of_find?_eq_some hfind)
        · exact ih g hgl

/-- A file record carrying a dangling `categoryId` reference. -/
def danglingFile : PdfFile :=
  { id := "f1", name := "a.pdf", categoryId := some "ghost", blob := [0],
    addedAt := 0, lastReadAt := none, currentPage := 1, totalPages := 0,
    size := 1 }

/-- C6 counterexample: stated over all operation sequences with arbitrary
arguments, the invariant fails — one `addPdf` with a `categoryId` naming no
existing category reaches a state with a dangling reference, because
`addPdf` and `updatePdfCategory` perform no validation. -/
theorem storeInv_reachable_counterexample :
    ¬ storeInv (applyOps initialStore [Op.addPdf danglingFile]) := by
  decide

/-- JS truthiness of a `string | null` value: `null` and `''` are falsy,
every other string is truthy. -/
def jsTruthyStr : Option String → Bool
  | none => false
  | some str => str != ""

/-- The category-filter stage of `filteredFiles` (`src/App.tsx:101-106`):
`'uncategorized'` keeps the files with `!f.categoryId` (JS-falsy
`categoryId`); a truthy `activeCategoryId` other than `'all'` keeps the
files with `f.categoryId === activeCategoryId`; otherwise no filtering. -/
def filteredByCategory (files : List PdfMetadata) (activeCategoryId : Option String) :
    List PdfMetadata :=
  if activeCategoryId = some "uncategorized" then
    files.filter (fun f => !jsTruthyStr f.categoryId)
  else if jsTruthyStr activeCategoryId ∧ activeCategoryId ≠ some "all" then
    files.filter (fun f => f.categoryId = activeCategoryId)
  else
    files

/-- A metadata record whose `categoryId` is the empty string: not `null`,
but JS-falsy. -/
def emptyCatMeta : PdfMetadata :=
  { id := "m1", name := "b.pdf", categoryId := some "", addedAt := 0,
    lastReadAt := none, currentPage := 1, totalPages := 0, size := 1 }

/-- C7 counterexample: the `"uncategorized"` filter keeps a record whose
`categoryId` is `some ""` — a value that is not `null` — because the code
tests JS truthiness (`!f.categoryId`), not equality with `null`. -/
theorem filteredByCategory_counterexample :
    filteredByCategory [emptyCatMeta] (some "uncategorized") = [emptyCatMeta] ∧
    emptyCatMeta.categoryId ≠ none := by
  decide

/-- Helper: `jsTruthyStr` is false exactly on `null` and the empty string. -/
theorem jsTruthyStr_eq_false_iff (x : Option String) :
    jsTruthyStr x = false ↔ x = none ∨ x = some "" := by
  cases x with
  | none => simp [jsTruthyStr]
  | some str => simp [jsTruthyStr]

/-- C7 (amended): filtering by a non-null id that is nonempty and distinct
from the reserved words `"all"` and `"uncategorized"` keeps exactly the
records whose `categoryId` equals it; filtering by `"uncategorized"` keeps
exactly the records whose `categoryId` is JS-falsy — `null` or the empty
string. -/
theorem filteredByCategory_spec (files : List PdfMetadata) (cid : String)
    (hne : cid ≠ "") (hall : cid ≠ "all") (hunc : cid ≠ "uncategorized") :
    (∀ f, f ∈ filteredByCategory files (some cid) ↔
      f ∈ files ∧ f.categoryId = some cid) ∧
    (∀ f, f ∈ filteredByCategory files (some "uncategorized") ↔
      f ∈ files ∧ (f.categoryId = none ∨ f.categoryId = some "")) := by
  constructor
  · intro f
    unfold filteredByCategory
    have h1 : (some cid : Option String) ≠ some "uncategorized" := by simpa using hunc
    have h2 : jsTruthyStr (some cid) = true := by simp [jsTruthyStr, hne]
    have h3 : (some cid : Option String) ≠ some "all" := by simpa using hall
    rw [if_neg h1, if_pos ⟨h2, h3⟩, List.mem_filter]
    simp
  · intro f
    unfold filteredByCategory
    rw [if_pos rfl, List.mem_filter]
    simp [Bool.not_eq_true', jsTruthyStr_eq_false_iff]

/-- ECMAScript whitespace (the character class stripped by
`String.prototype.trim`): WhiteSpace and LineTerminator code points. -/
def isJsWhitespace (c : Char) : Bool :=
  c == '\t' || c == '\n' || c == '\x0b' || c == '\x0c' || c == '\r' || c == ' ' ||
  c == '\xa0' || c == ' ' ||
  (decide (' ' ≤ c) && decide (c ≤ ' ')) ||
  c == ' ' || c == ' ' || c == ' ' || c == ' ' ||
  c == '　' || c == '﻿'

/-- `String.prototype.trim`: strip leading and trailing JS whitespace. -/
def jsTrim (s : String) : String :=
  ⟨((s.data.dropWhile isJsWhitespace).reverse.dropWhile isJsWhitespace).reverse⟩

/-- A name that is empty or consists only of whitespace. -/
def isBlankName (s : String) : Bool :=
  s.data.all isJsWhitespace

/-- `handleAddSubmit` (`src/components/Sidebar.tsx:27-34`): submit the new
collection name only when its trimmed form is truthy (a nonempty string);
the value passed on to `onAddCategory` is the trimmed name. `none` means
the submission is rejected and nothing is written. -/
def handleAddSubmit (newCategoryName : String) : Option String :=
  if jsTrim newCategoryName ≠ "" then some (jsTrim newCategoryName) else none

/-- The full collection-creation path: `handleAddSubmit` feeding
`handleAddCategory` (`src/App.tsx:199-203`), which builds the `Category`
record (with a fresh uuid and `Date.now()`, passed here explicitly) and
stores it via `addCategory`. -/
def submitNewCategory (s : Store) (newCategoryName : String) (id : String)
    (now : Int) : Store :=
  match handleAddSubmit newCategoryName with
  | none => s
  | some name => addCategory s { id := id, name := name, createdAt := now }

/-- Helper: a `dropWhile` result whose members all satisfy the predicate is
empty (its head, if any, fails the predicate). -/
theorem dropWhile_eq_nil_of_all (p : Char → Bool) (l : List Char)
    (h : ∀ x ∈ l.dropWhile p, p x = true) : l.dropWhile p = [] := by
  induction l with
  | nil => rfl
  | cons c cs ih =>
    by_cases hc : p c = true
    · rw [List.dropWhile_cons_of_pos hc] at h ⊢
      exact ih h
    · rw [List.dropWhile_cons_of_neg hc] at h
      exact absurd (h c (List.mem_cons_self c cs)) hc

/-- Helper: a blank (all-whitespace) name trims to the empty string. -/
theorem jsTrim_eq_empty_of_blank (s : String) (h : isBlankName s = true) :
    jsTrim s = "" := by
  unfold isBlankName at h
  rw [List.all_eq_true] at h
  unfold jsTrim
  have h1 : s.data.dropWhile isJsWhitespace = [] :=
    dropWhile_eq_nil_of_all _ _
      (fun x hx => h x ((List.dropWhile_sublist isJsWhitespace).subset hx))
  rw [h1]
  rfl

/-- Helper: a nonempty `jsTrim` result is not blank. -/
theorem not_blank_of_jsTrim_ne_empty (s : String) (h : jsTrim s ≠ "") :
    isBlankName (jsTrim s) = false := by
  by_contra hb
  rw [Bool.not_eq_false] at hb
  apply h
  unfold isBlankName at hb
  unfold jsTrim at hb ⊢
  rw [List.all_eq_true] at hb
  have h2 : (s.data.dropWhile isJsWhitespace).reverse.dropWhile isJsWhitespace = [] := by
    refine dropWhile_eq_nil_of_all _ _ (fun x hx => hb x ?_)
    simpa using List.mem_reverse.mpr hx
  rw [h2]
  rfl

/-- Helper: a member of `putCategory l c` is `c` or a member of `l`. -/
theorem mem_putCategory {l : List Category} {c g : Category}
    (h : g ∈ putCategory l c) : g = c ∨ g ∈ l := by
  unfold putCategory at h
  split at h
  · rcases List.mem_map.mp h with ⟨x, hx, hxe⟩
    by_cases hxid : x.id = c.id
    · left
      rw [← hxe, if_pos hxid]
    · right
      rw [← hxe, if_neg hxid]
      exact hx
  · rcases List.mem_append.mp h with h | h
    · right
      exact h
    · left
      simpa using h

/-- C8: the creation path rejects empty and whitespace-only collection
names before any write (the store is unchanged), and if no stored category
has a blank name then none has after any submission: no collection record
with an empty or whitespace-only name is ever stored through this path. -/
theorem submitNewCategory_rejects_blank (s : Store) (input : String)
    (id : String) (now : Int)
    (hs : ∀ c ∈ s.categories, isBlankName c.name = false) :
    (isBlankName input = true → submitNewCategory s input id now = s) ∧
    (∀ c ∈ (submitNewCategory s input id now).categories,
      isBlankName c.name = false) := by
  constructor
  · intro hb
    unfold submitNewCategory handleAddSubmit
    rw [if_neg (by simpa using jsTrim_eq_empty_of_blank input hb)]
  · intro c hc
    unfold submitNewCategory handleAddSubmit at hc
    by_cases ht : jsTrim input ≠ ""
    · rw [if_pos ht] at hc
      rcases mem_putCategory hc with rfl | hcl
      · exact not_blank_of_jsTrim_ne_empty input ht
      · exact hs _ hcl
    · rw [if_neg ht] at hc
      exact hs c hc

/-- State of the module-level `dbPromise` variable of `src/services/db.ts`
(line 19) on the single-threaded JS event loop: `dbPromise` holds the
memoized promise identity (a handle number) once set; `upgradeRuns` counts
executions of the `upgrade` schema-creation callback, which runs exactly
once per `openDB` of a fresh database; `nextHandle` generates promise
identities. -/
structure DBState where
  dbPromise : Option Nat
  upgradeRuns : Nat
  nextHandle : Nat
deriving DecidableEq, Repr

/-- `getDB` (`src/services/db.ts:21-34`): the body is synchronous (no
`await` between the `if (!dbPromise)` check and the assignment), so each
call is one atomic step of the event loop; concurrent callers are
interleavings of these steps. Returns the handle handed to the caller and
the successor state. -/
def getDB (s : DBState) : Nat × DBState :=
  match s.dbPromise with
  | some h => (h, s)
  | none =>
    (s.nextHandle,
     { dbPromise := some s.nextHandle, upgradeRuns := s.upgradeRuns + 1,
       nextHandle := s.nextHandle + 1 })

/-- The module state before any call: `dbPromise = null`. -/
def initDBState : DBState := { dbPromise := none, upgradeRuns := 0, nextHandle := 0 }

/-- `n` successive `getDB` calls; returns the handles received by the `n`
callers and the final state. -/
def getDBCalls : Nat → DBState → List Nat × DBState
  | 0, s => ([], s)
  | n + 1, s =>
    let r := getDB s
    let rs := getDBCalls n r.2
    (r.1 :: rs.1, rs.2)

/-- Helper: once `dbPromise` is set, every further call returns the
memoized handle and leaves the state unchanged. -/
theorem getDBCalls_memoized (n : Nat) (s : DBState) (hdl : Nat)
    (h : s.dbPromise = some hdl) :
    getDBCalls n s = (List.replicate n hdl, s) := by
  induction n with
  | zero => rfl
  | succ m ih =>
    have hget : getDB s = (hdl, s) := by
      unfold getDB
      rw [h]
    simp [getDBCalls, hget, ih, List.replicate]

/-- C9: starting from the uninitialized module state, any number `n ≥ 1` of
`getDB` calls interleaved on the event loop runs the schema-creation
`upgrade` body exactly once, hands every one of the `n` callers the same
store handle, and leaves the memoized state such that any later call is a
no-op returning that same handle. -/
theorem getDB_single_flight (n : Nat) (hn : 1 ≤ n) :
    (getDBCalls n initDBState).2.upgradeRuns = 1 ∧
    (∀ h ∈ (getDBCalls n initDBState).1, h = 0) ∧
    getDB (getDBCalls n initDBState).2 = (0, (getDBCalls n initDBState).2) := by
  obtain ⟨m, rfl⟩ : ∃ m, n = m + 1 := ⟨n - 1, (Nat.succ_pred_eq_of_pos hn).symm⟩
  have h2 := getDBCalls_memoized m ⟨some 0, 1, 1⟩ 0 rfl
  have hcalls : getDBCalls (m + 1) initDBState = (0 :: List.replicate m 0, ⟨some 0, 1, 1⟩) := by
    simp [getDBCalls, getDB, initDBState, h2]
  rw [hcalls]
  refine ⟨rfl, ?_, rfl⟩
  intro h hh
  rcases List.mem_cons.mp hh with rfl | hh
  · rfl
  · exact List.eq_of_mem_replicate hh

/-- A sample stored file for concrete instantiations. -/
def sampleFile : PdfFile :=
  { id := "doc1", name := "x.pdf", categoryId := some "cat1", blob := [1, 2, 3],
    addedAt := 10, lastReadAt := none, currentPage := 1, totalPages := 5,
    size := 3 }

/-- A sample category for concrete instantiations. -/
def sampleCategory : Category := { id := "cat1", name := "Work", createdAt := 1 }

/-- A sample store holding one file and one category. -/
def sampleStore : Store := { files := [sampleFile], categories := [sampleCategory] }

/-- A metadata record referencing category `"c1"`. -/
def catMeta : PdfMetadata :=
  { id := "m2", name := "c.pdf", categoryId := some "c1", addedAt := 5,
    lastReadAt := none, currentPage := 1, totalPages := 0, size := 2 }

/-- A metadata record with `categoryId = null`. -/
def nullCatMeta : PdfMetadata :=
  { id := "m3", name := "d.pdf", categoryId := none, addedAt := 6,
    lastReadAt := none, currentPage := 1, totalPages := 0, size := 2 }

/-- C4 witness: `updatePdfProgress` at a concrete store, with
`totalPages = some 0` exercising the falsy branch. -/
theorem updatePdfProgress_spec_witness :
    ∃ f', getPdfById (updatePdfProgress sampleStore "doc1" 3 (some 0) 99) "doc1" = some f' ∧
      f'.currentPage = 3 ∧
      f'.lastReadAt = some 99 ∧
      (∀ t : Int, (some 0 : Option Int) = some t → t ≠ 0 → f'.totalPages = t) ∧
      (((some 0 : Option Int) = none ∨ (some 0 : Option Int) = some 0) →
        f'.totalPages = sampleFile.totalPages) :=
  updatePdfProgress_spec sampleStore "doc1" 3 (some 0) 99 sampleFile (by decide)

/-- C5 witness: the no-op behaviour at a concrete store and absent id. -/
theorem missingId_noop_witness :
    updatePdfProgress sampleStore "nope" 2 none 5 = sampleStore ∧
    updatePdfCategory sampleStore "nope" (some "c1") = sampleStore ∧
    deletePdf sampleStore "nope" = sampleStore ∧
    deletePdf (deletePdf sampleStore "nope") "nope" = deletePdf sampleStore "nope" ∧
    getPdfById (deletePdf sampleStore "nope") "nope" = none :=
  missingId_noop sampleStore "nope" 2 none 5 (some "c1") (by decide)

/-- C6 witness: the invariant in a concrete validly-reached state. -/
theorem storeInv_of_reachableValid_witness :
    storeInv (applyOp initialStore (Op.addCategory sampleCategory)) :=
  storeInv_of_reachableValid
    (ReachableValid.step (Op.addCategory sampleCategory) ReachableValid.init trivial)

/-- C7 witness: the amended filter characterization at a concrete list and
the id `"c1"`. -/
theorem filteredByCategory_spec_witness :
    (∀ f, f ∈ filteredByCategory [catMeta, nullCatMeta] (some "c1") ↔
      f ∈ [catMeta, nullCatMeta] ∧ f.categoryId = some "c1") ∧
    (∀ f, f ∈ filteredByCategory [catMeta, nullCatMeta] (some "uncategorized") ↔
      f ∈ [catMeta, nullCatMeta] ∧ (f.categoryId = none ∨ f.categoryId = some "")) :=
  filteredByCategory_spec [catMeta, nullCatMeta] "c1" (by decide) (by decide) (by decide)

/-- C8 witness: a whitespace-only submission against a concrete store. -/
theorem submitNewCategory_rejects_blank_witness :
    (isBlankName "   " = true → submitNewCategory sampleStore "   " "cat2" 7 = sampleStore) ∧
    (∀ c ∈ (submitNewCategory sampleStore "   " "cat2" 7).categories,
      isBlankName c.name = false) :=
  submitNewCategory_rejects_blank sampleStore "   " "cat2" 7 (by decide)

/-- C9 witness: three first-time callers. -/
theorem getDB_single_flight_witness :
    (getDBCalls 3 initDBState).2.upgradeRuns = 1 ∧
    (∀ h ∈ (getDBCalls 3 initDBState).1, h = 0) ∧
    getDB (getDBCalls 3 initDBState).2 = (0, (getDBCalls 3 initDBState).2) :=
  getDB_single_flight 3 (by decide)

/-- C10 witness: the frame conditions at a concrete store with unique keys. -/
theorem update_frame_witness :
    ((updatePdfProgress sampleStore "doc1" 3 (some 7) 42).categories = sampleStore.categories ∧
     List.Forall₂ (fun f g =>
        g.id = f.id ∧ g.name = f.name ∧ g.categoryId = f.categoryId ∧
        g.blob = f.blob ∧ g.addedAt = f.addedAt ∧ g.size = f.size ∧
        (f.id ≠ "doc1" → g = f)) sampleStore.files
       (updatePdfProgress sampleStore "doc1" 3 (some 7) 42).files) ∧
    ((updatePdfCategory sampleStore "doc1" (some "c1")).categories = sampleStore.categories ∧
     List.Forall₂ (fun f g =>
        g.id = f.id ∧ g.name = f.name ∧ g.blob = f.blob ∧ g.addedAt = f.addedAt ∧
        g.lastReadAt = f.lastReadAt ∧ g.currentPage = f.currentPage ∧
        g.totalPages = f.totalPages ∧ g.size = f.size ∧
        (f.id ≠ "doc1" → g = f)) sampleStore.files
       (updatePdfCategory sampleStore "doc1" (some "c1")).files) :=
  update_frame sampleStore "doc1" 3 (some 7) 42 (some "c1") (by decide)
